import Mathlib

/-!
# Verification of the rustmate vault / asset-streaming core

Shallow embedding of the Rust sources under `src-tauri/src/` (security.rs,
database.rs, server.rs, protocol.rs, commands.rs, state.rs) together with
proofs settling the frozen claims about the natural-language specification.

Modelling conventions:
* bytes are `Nat` values; byte buffers are `List Nat`;
* `u64` arithmetic that can wrap is taken modulo `2 ^ 64` (release-profile
  semantics of Rust integer overflow); operations that would panic in every
  profile (out-of-bounds slice indexing) are modelled with `Option`, `none`
  standing for the panic;
* external collaborators that are not part of this repository (the AES-GCM
  cipher of the `aes_gcm` crate, the HMAC-SHA256 PRF of the `hmac`/`sha2`
  crates, SQLCipher's encrypted store, the tower-http CORS layer) are
  modelled abstractly, each with a doc comment naming what is modelled.
-/

namespace Rustmate

/-- A byte. The embedding does not constrain values to `< 256`; the source
operations never produce out-of-range bytes from in-range ones. -/
abbrev Byte := Nat

/-- `2 ^ 64`, the modulus of Rust `u64` arithmetic. -/
def u64Mod : Nat := 2 ^ 64

/-- Release-profile semantics of the Rust expression `total_len - 1` on `u64`:
wrapping subtraction of one, `(a + 2^64 - 1) % 2^64`. -/
def u64sub1 (a : Nat) : Nat := (a + (u64Mod - 1)) % u64Mod

/-- Models Rust `str::parse::<u64>` applied to a list of characters: an
optional leading `+`, then at least one decimal digit, and the value must fit
in a `u64`; anything else fails. -/
def parseU64c (cs : List Char) : Option Nat :=
  let ds := match cs with
    | '+' :: rest => rest
    | _ => cs
  if ds = [] then none
  else if ds.all Char.isDigit then
    let v := ds.foldl (fun a c => a * 10 + (c.toNat - 48)) 0
    if v < u64Mod then some v else none
  else none

/-- Models Rust `str::split('-')` on a list of characters.  Rust's `split`
always yields at least one field, so the result is the first field paired
with the list of remaining fields (`parts[0]` and `parts[1..]`). -/
def splitDash : List Char → List Char × List (List Char)
  | [] => ([], [])
  | c :: rest =>
    let r := splitDash rest
    if c = '-' then ([], r.1 :: r.2) else (c :: r.1, r.2)

/-- HTTP status codes used by the two streaming endpoints
(server.rs / protocol.rs, plus the 500 mapping in lib.rs). -/
inductive StatusM
  | ok
  | partContent
  | notSatisfiable
  | forbidden
  | notFound
  | serverError
  | badRequest
  deriving DecidableEq

/-- An HTTP response as both endpoints build it: status, ordered header list,
body bytes. -/
structure ResponseM where
  status : StatusM
  headers : List (String × String)
  body : List Byte
  deriving DecidableEq

/-- First value bound to header name `k` (HTTP header lookup). -/
def lookupHeader (k : String) (hs : List (String × String)) : Option String :=
  (hs.find? (fun p => p.1 == k)).map (fun p => p.2)

/-- Association-list lookup, modelling `HashMap::get` / keyed queries. -/
def lookupList {α : Type} (m : List (String × α)) (k : String) : Option α :=
  (m.find? (fun p => p.1 == k)).map (fun p => p.2)

/-- UTF-8-agnostic byte view of an ASCII string (bodies of text responses). -/
def strBytes (s : String) : List Byte := s.data.map Char.toNat

/-! ## Range parsing and decision (shared text of server.rs 130-170 and
protocol.rs 75-113) -/

/-- The parsed range start: first `-`-separated field of the text after
`bytes=`, `parse::<u64>().unwrap_or(0)`. -/
def rangeStartOf (h : String) : Nat :=
  (parseU64c (splitDash (h.data.drop 6)).1).getD 0

/-- The parsed range end as the code computes it: second field when present
and nonempty, `parse::<u64>().unwrap_or(total_len - 1)`, else `total_len - 1`,
with the `u64` subtraction wrapping. -/
def rangeEndOf (h : String) (L : Nat) : Nat :=
  match (splitDash (h.data.drop 6)).2 with
  | [] => u64sub1 L
  | p1 :: _ => if p1 = [] then u64sub1 L else (parseU64c p1).getD (u64sub1 L)

/-- Outcome of the range-header examination in both handlers. -/
inductive RangeDecision
  | noRange
  | unsat
  | satisfiable (s e : Nat)
  deriving DecidableEq

/-- The decision both handlers take on an optional `Range` header over a
buffer of length `L`: absent header or one not starting with `bytes=` falls
through to the full response; otherwise parse start and end and test
`start <= end && start < total_len`, clamping `end` to `total_len - 1`
in the satisfiable case. -/
def rangeDecide (L : Nat) : Option String → RangeDecision
  | none => .noRange
  | some h =>
    if h.data.take 6 = "bytes=".data then
      if rangeStartOf h ≤ rangeEndOf h L ∧ rangeStartOf h < L then
        .satisfiable (rangeStartOf h) (min (rangeEndOf h L) (u64sub1 L))
      else .unsat
    else .noRange

/-- Models Rust slice indexing `data[s..=e]`; `none` models the panic when
`s > e + 1` or `e` is out of bounds. -/
def sliceInclusive (data : List Byte) (s e : Nat) : Option (List Byte) :=
  if s ≤ e + 1 ∧ e + 1 ≤ data.length then some ((data.drop s).take (e + 1 - s))
  else none

/-- server.rs `get_asset`, steps 4-5: build the response from the decrypted
buffer, the mime type and the optional `Range` header.  `none` models a
panic inside the handler. -/
def serverRangeSection (mime : String) (data : List Byte) (hdr : Option String) :
    Option ResponseM :=
  match rangeDecide data.length hdr with
  | .noRange =>
    some ⟨.ok, [("Content-Type", mime), ("Accept-Ranges", "bytes")], data⟩
  | .unsat =>
    some ⟨.notSatisfiable,
      [("Content-Range", "bytes */" ++ toString data.length)], []⟩
  | .satisfiable s e =>
    (sliceInclusive data s e).map fun chunk =>
      ⟨.partContent,
        [("Content-Type", mime),
         ("Content-Range",
           "bytes " ++ toString s ++ "-" ++ toString e ++ "/" ++ toString data.length),
         ("Content-Length", toString chunk.length),
         ("Accept-Ranges", "bytes")],
        chunk⟩

/-- protocol.rs `asset_protocol_handler`, range/full response section; the
same decision logic as the server, but with the protocol handler's own
header lists (note: the 416 response carries only `Content-Range`). -/
def protocolRangeSection (mime : String) (data : List Byte) (hdr : Option String) :
    Option ResponseM :=
  match rangeDecide data.length hdr with
  | .noRange =>
    some ⟨.ok,
      [("Content-Type", mime), ("Access-Control-Allow-Origin", "*"),
       ("Accept-Ranges", "bytes")],
      data⟩
  | .unsat =>
    some ⟨.notSatisfiable,
      [("Content-Range", "bytes */" ++ toString data.length)], []⟩
  | .satisfiable s e =>
    (sliceInclusive data s e).map fun chunk =>
      ⟨.partContent,
        [("Content-Range",
           "bytes " ++ toString s ++ "-" ++ toString e ++ "/" ++ toString data.length),
         ("Content-Length", toString chunk.length),
         ("Content-Type", mime),
         ("Access-Control-Allow-Origin", "*"),
         ("Accept-Ranges", "bytes")],
        chunk⟩

/-! ## Spec-side definitions for the range claim (C1) -/

/-- The range end as the claim words it: default `L - 1` in exact (Nat)
arithmetic rather than the code's wrapping `u64` subtraction. -/
def claimEnd (h : String) (L : Nat) : Nat :=
  match (splitDash (h.data.drop 6)).2 with
  | [] => L - 1
  | p1 :: _ => if p1 = [] then L - 1 else (parseU64c p1).getD (L - 1)

/-- The inclusive byte slice `[a, b]` of a buffer, as the spec states it. -/
def inclusiveSlice (data : List Byte) (a b : Nat) : List Byte :=
  (data.take (b + 1)).drop a

/-! ## Crypto primitives (security.rs) -/

/-- security.rs `SecurityError`. -/
inductive SecurityError
  | encryptionError
  | decryptionError
  | keyDerivationError
  deriving DecidableEq

/-- Modelled from the spec: the AES-256-GCM AEAD supplied by the external
`aes_gcm` crate.  `enc key nonce plaintext` returns the
ciphertext-with-authentication-tag (or `none` on catastrophic cipher
failure); `dec key nonce ciphertext` returns the plaintext or `none` when
authentication fails.  The AEAD round-trip law is taken as a hypothesis in
the theorems that need it. -/
structure AeadCipher where
  enc : List Byte → List Byte → List Byte → Option (List Byte)
  dec : List Byte → List Byte → List Byte → Option (List Byte)

/-- security.rs `encrypt_data`: encrypt under `(key, nonce)` and return
`nonce ++ ciphertext`.  The fresh random 12-byte nonce drawn from the thread
RNG is passed as the `nonce` argument. -/
def encrypt_data (c : AeadCipher) (nonce data key : List Byte) :
    Except SecurityError (List Byte) :=
  match c.enc key nonce data with
  | none => .error .encryptionError
  | some ct => .ok (nonce ++ ct)

/-- security.rs `decrypt_data`: reject inputs shorter than the 12-byte nonce,
split nonce and ciphertext, authenticated-decrypt. -/
def decrypt_data (c : AeadCipher) (encryptedData key : List Byte) :
    Except SecurityError (List Byte) :=
  if encryptedData.length < 12 then .error .decryptionError
  else
    match c.dec key (encryptedData.take 12) (encryptedData.drop 12) with
    | none => .error .decryptionError
    | some pt => .ok pt

/-- Bytewise xor of two buffers (PBKDF2's block accumulator). -/
def xorBytes (a b : List Byte) : List Byte :=
  List.zipWith (fun x y => Nat.xor x y) a b

/-- Big-endian 4-byte encoding of the PBKDF2 block index. -/
def int32be (i : Nat) : List Byte :=
  [i / 2 ^ 24 % 256, i / 2 ^ 16 % 256, i / 2 ^ 8 % 256, i % 256]

/-- The PBKDF2 inner chain: starting from `u` with accumulator `acc`, apply
the PRF `n` more times, xoring every iterate into the accumulator. -/
def pbkdf2Chain (prf : List Byte → List Byte → List Byte) (pw : List Byte) :
    Nat → List Byte → List Byte → List Byte
  | 0, _, acc => acc
  | n + 1, u, acc =>
    let u' := prf pw u
    pbkdf2Chain prf pw n u' (xorBytes acc u')

/-- PBKDF2 block `T_i = U_1 xor ... xor U_c` with
`U_1 = PRF(pw, salt ++ INT(i))` and `U_j = PRF(pw, U_(j-1))`. -/
def pbkdf2Block (prf : List Byte → List Byte → List Byte)
    (pw salt : List Byte) (c i : Nat) : List Byte :=
  let u1 := prf pw (salt ++ int32be i)
  pbkdf2Chain prf pw (c - 1) u1 u1

/-- Modelled from the spec: PBKDF2 (the external `pbkdf2` crate) over an
abstract 32-byte-output PRF standing for HMAC-SHA256 (the external
`hmac`/`sha2` crates): concatenate blocks and truncate to `dkLen`. -/
def pbkdf2 (prf : List Byte → List Byte → List Byte)
    (pw salt : List Byte) (c dkLen : Nat) : List Byte :=
  (((List.range ((dkLen + 31) / 32)).map
      (fun b => pbkdf2Block prf pw salt c (b + 1))).flatten).take dkLen

/-- The iteration count hard-coded in security.rs `derive_key`. -/
def deriveKeyIterations : Nat := 100000

/-- security.rs `derive_key`: PBKDF2-HMAC-SHA256 with 100,000 iterations and
a 32-byte output. -/
def derive_key (prf : List Byte → List Byte → List Byte)
    (password salt : List Byte) : List Byte :=
  pbkdf2 prf password salt deriveKeyIterations 32

/-! ## Vault creation / unlock (database.rs, commands.rs) -/

/-- database.rs `VaultError` (the `thiserror` enum).  Note it has no
dedicated missing-salt variant: a missing salt file is reported through
`IoError`. -/
inductive VaultError
  | dbError (msg : String)
  | ioError (kind msg : String)
  | securityError (e : SecurityError)
  | invalidPassword
  | vaultAlreadyExists
  deriving DecidableEq

/-- The `thiserror` display strings of `SecurityError`. -/
def securityErrorMessage : SecurityError → String
  | .encryptionError => "Encryption failed"
  | .decryptionError => "Decryption failed"
  | .keyDerivationError => "Key derivation failed"

/-- The `thiserror` display strings of `VaultError`, as `unlock_vault`
surfaces them via `e.to_string()`. -/
def vaultErrorMessage : VaultError → String
  | .dbError m => "Database error: " ++ m
  | .ioError _ m => "IO error: " ++ m
  | .securityError e => "Security error: " ++ securityErrorMessage e
  | .invalidPassword => "Invalid password"
  | .vaultAlreadyExists => "Vault already exists"

/-- The on-disk situation `VaultManager::new` finds at the vault directory,
together with a model of the SQLCipher store.  Modelled from the spec: the
relational store is encrypted under the raw password it was created with
(`dbPassword`), and "the store's own encryption layer rejects a wrong secret
by making all reads fail", so the trivial verification read succeeds exactly
when the supplied password equals `dbPassword`.  `freshSalt` is the random
salt `generate_salt` would draw on the create path. -/
structure VaultEnv where
  dbExists : Bool
  saltExists : Bool
  saltBytes : List Byte
  dbPassword : String
  freshSalt : List Byte

/-- The result of a successful `VaultManager::new`: the derived asset key and
the secret the connection was keyed with. -/
structure VaultManagerM where
  assetKey : List Byte
  dbKey : String
  deriving DecidableEq

/-- database.rs `VaultManager::new`.  Create path (store file absent): write
a fresh salt, derive the asset key, key the new store with the password and
initialise the schema.  Open path: fail with `IoError("Salt file missing")`
when the salt file is absent; otherwise derive the key, open the store and
verify the password with a trivial read (`SELECT count(*) FROM shards`),
failing with `InvalidPassword` when that read fails. -/
def vaultManagerNew (prf : List Byte → List Byte → List Byte)
    (env : VaultEnv) (password : String) : Except VaultError VaultManagerM :=
  if env.dbExists = false then
    .ok ⟨derive_key prf (strBytes password) env.freshSalt, password⟩
  else if env.saltExists = false then
    .error (.ioError "NotFound" "Salt file missing")
  else
    let assetKey := derive_key prf (strBytes password) env.saltBytes
    if password = env.dbPassword then .ok ⟨assetKey, password⟩
    else .error .invalidPassword

/-- commands.rs `unlock_vault`: on success replace the process-wide session,
on failure keep the previous contents of the session cell and surface the
error display string. -/
def unlockVault (prf : List Byte → List Byte → List Byte)
    (cur : Option VaultManagerM) (env : VaultEnv) (password : String) :
    Option VaultManagerM × Except String Bool :=
  match vaultManagerNew prf env password with
  | .ok m => (some m, .ok true)
  | .error e => (cur, .error (vaultErrorMessage e))

/-! ## Vault state, cache and the streaming endpoints
(state.rs, server.rs, protocol.rs, commands.rs) -/

/-- A row of the `assets` table (the columns the core reads). -/
structure AssetRow where
  id : String
  shardId : Option String
  filePath : String
  mimeType : String
  deriving DecidableEq

/-- A row of the `shards` table (only the id matters to the core). -/
structure ShardRow where
  id : String
  deriving DecidableEq

/-- The unlocked `VaultManager` as the request handlers see it: the asset
key and the two tables reachable through `conn`. -/
structure SessionM where
  assetKey : List Byte
  assets : List AssetRow
  shards : List ShardRow
  deriving DecidableEq

/-- state.rs `AppState`: the lock-guarded optional session and the
decrypted-asset cache (`HashMap<String, Vec<u8>>`, modelled as an
association list with the iteration order of `keys().next()` being the
head). -/
structure AppStateM where
  vault : Option SessionM
  cache : List (String × List Byte)
  deriving DecidableEq

/-- Remove every binding of key `k` (`HashMap::remove` on a map whose keys
are distinct). -/
def removeKey (m : List (String × List Byte)) (k : String) :
    List (String × List Byte) :=
  m.filter (fun p => p.1 != k)

/-- server.rs `get_asset`, cache-insertion guard: when the cache already
holds at least 50 entries, remove the entry of the first iterated key. -/
def cacheEvictIfFull (m : List (String × List Byte)) : List (String × List Byte) :=
  if 50 ≤ m.length then
    match m with
    | [] => m
    | (k, _) :: _ => removeKey m k
  else m

/-- server.rs `get_asset`, cache insertion: evict when full, then
`HashMap::insert` (replacing any binding of the same key). -/
def cacheInsert50 (m : List (String × List Byte)) (id : String)
    (data : List Byte) : List (String × List Byte) :=
  (id, data) :: removeKey (cacheEvictIfFull m) id

/-- The 403 `"Vault locked"` response of server.rs `get_asset`. -/
def vaultLockedResp : ResponseM := ⟨.forbidden, [], strBytes "Vault locked"⟩

/-- server.rs `get_asset`: read the cache, require an unlocked session to
resolve the mime type, on a cache miss resolve the file, decrypt and insert
into the cache, then apply the range section.  Returns the response and the
new cache contents; `none` models a panic.  (The sequential model performs
the miss path's second row lookup against the same table.) -/
def getAsset (c : AeadCipher) (st : AppStateM) (disk : List (String × List Byte))
    (id : String) (rangeHdr : Option String) :
    Option (ResponseM × List (String × List Byte)) :=
  match st.vault with
  | none => some (vaultLockedResp, st.cache)
  | some mgr =>
    match (mgr.assets.find? (fun r => r.id == id)) with
    | none => some (⟨.notFound, [], strBytes "Asset not found"⟩, st.cache)
    | some row =>
      match lookupList st.cache id with
      | some data =>
        (serverRangeSection row.mimeType data rangeHdr).map (fun r => (r, st.cache))
      | none =>
        match lookupList disk row.filePath with
        | none => some (⟨.notFound, [], strBytes "File not found on disk"⟩, st.cache)
        | some enc =>
          match decrypt_data c enc mgr.assetKey with
          | .error _ => some (⟨.serverError, [], strBytes "Failed to decrypt"⟩, st.cache)
          | .ok data =>
            (serverRangeSection row.mimeType data rangeHdr).map
              (fun r => (r, cacheInsert50 st.cache id data))

/-- Modelled from the spec: `CorsLayer::permissive()` (external tower-http
middleware wrapped around the route in server.rs `start_server`) attaches a
permissive `Access-Control-Allow-Origin` header to every response the route
produces. -/
def corsWrap (r : ResponseM) : ResponseM :=
  { r with headers := r.headers ++ [("Access-Control-Allow-Origin", "*")] }

/-- The `/asset/:id` route as served: `get_asset` behind the CORS layer. -/
def serverGetAsset (c : AeadCipher) (st : AppStateM)
    (disk : List (String × List Byte)) (id : String) (rangeHdr : Option String) :
    Option (ResponseM × List (String × List Byte)) :=
  (getAsset c st disk id rangeHdr).map (fun p => (corsWrap p.1, p.2))

/-- protocol.rs: strip leading `/` characters from the request path. -/
def trimSlashes (s : String) : String :=
  String.mk (s.data.dropWhile (fun c => c = '/'))

/-- protocol.rs `asset_protocol_handler` (with the `Err` returns rendered as
the 500 responses lib.rs builds from them): extract the id, require an
unlocked session, resolve the row, read and decrypt the blob (no cache on
this endpoint), then apply the range section. -/
def protocolHandler (c : AeadCipher) (st : AppStateM)
    (disk : List (String × List Byte)) (path : String) (rangeHdr : Option String) :
    Option ResponseM :=
  if trimSlashes path = "" then some ⟨.badRequest, [], strBytes "Missing asset ID"⟩
  else
    match st.vault with
    | none => some ⟨.forbidden, [], strBytes "Vault is locked"⟩
    | some mgr =>
      match (mgr.assets.find? (fun r => r.id == trimSlashes path)) with
      | none => some ⟨.serverError, [], strBytes "Asset not found"⟩
      | some row =>
        match lookupList disk row.filePath with
        | none => some ⟨.serverError, [], strBytes "File not found on disk"⟩
        | some enc =>
          match decrypt_data c enc mgr.assetKey with
          | .error _ => some ⟨.serverError, [], strBytes "Failed to decrypt"⟩
          | .ok data => protocolRangeSection row.mimeType data rangeHdr

/-! ## Asset deletion (commands.rs) -/

/-- Best-effort removal of a blob file (`fs::remove_file`, errors ignored). -/
def removeDiskFile (disk : List (String × List Byte)) (name : String) :
    List (String × List Byte) :=
  disk.filter (fun p => p.1 != name)

/-- commands.rs `delete_asset`: resolve the row, remove the blob
(best-effort), delete the DB row, then invalidate the cache entry. -/
def deleteAsset (st : AppStateM) (disk : List (String × List Byte)) (id : String) :
    Except String (AppStateM × List (String × List Byte)) :=
  match st.vault with
  | none => .error "Vault not locked"
  | some mgr =>
    match (mgr.assets.find? (fun r => r.id == id)) with
    | none => .error "Asset not found"
    | some row =>
      let disk' := removeDiskFile disk row.filePath
      let assets' := mgr.assets.filter (fun r => ! (r.id == id))
      let cache' := removeKey st.cache id
      .ok ({ vault := some { mgr with assets := assets' }, cache := cache' }, disk')

/-- commands.rs `delete_shard`: collect the assets linked to the shard,
remove their blobs (best-effort), delete the asset rows and the shard row.
The cache is not touched on this path. -/
def deleteShard (st : AppStateM) (disk : List (String × List Byte)) (sid : String) :
    Except String (AppStateM × List (String × List Byte)) :=
  match st.vault with
  | none => .error "Vault not locked"
  | some mgr =>
    let linked := mgr.assets.filter (fun r => r.shardId == some sid)
    let disk' := linked.foldl (fun d r => removeDiskFile d r.filePath) disk
    let assets' := mgr.assets.filter (fun r => ! (r.shardId == some sid))
    let shards' := mgr.shards.filter (fun s => ! (s.id == sid))
    .ok ({ vault := some { mgr with assets := assets', shards := shards' },
           cache := st.cache }, disk')

/-! ## Concrete objects used by witnesses and counterexamples -/

/-- A trivially correct AEAD instance (identity cipher) used to instantiate
the abstract-cipher hypotheses at concrete inputs. -/
def idCipher : AeadCipher :=
  { enc := fun _ _ m => some m, dec := fun _ _ ct => some ct }

/-- A constant 32-byte-output PRF used to instantiate the abstract-PRF
hypotheses at concrete inputs. -/
def zeroPrf : List Byte → List Byte → List Byte :=
  fun _ _ => List.replicate 32 0

/-! ## Supporting lemmas -/

theorem u64sub1_eq (L : Nat) (h1 : 1 ≤ L) (h2 : L ≤ 2 ^ 64) : u64sub1 L = L - 1 := by
  unfold u64sub1 u64Mod
  omega

theorem pbkdf2Chain_length (prf : List Byte → List Byte → List Byte)
    (pw : List Byte) (hl : ∀ k m, (prf k m).length = 32) :
    ∀ (n : Nat) (u acc : List Byte), acc.length = 32 →
      (pbkdf2Chain prf pw n u acc).length = 32 := by
  intro n
  induction n with
  | zero => intro u acc hacc; simpa [pbkdf2Chain] using hacc
  | succ k ih =>
    intro u acc hacc
    simp only [pbkdf2Chain]
    exact ih _ _ (by simp [xorBytes, hacc, hl])

/-! ## C5 — encrypt/decrypt round-trip and blob layout -/

/-- **C5.** For all byte buffers `b` and 32-byte keys `k`, whenever
`encrypt_data` succeeds with output `out`, the output is laid out as the
fresh 12-byte nonce followed by the ciphertext-with-tag, and `decrypt_data`
on `out` with the same key succeeds and returns exactly `b`.  The AES-GCM
AEAD of the external `aes_gcm` crate is abstract; its round-trip law is the
hypothesis `hc`. -/
theorem encrypt_then_decrypt_roundtrip (c : AeadCipher) (b k nonce out : List Byte)
    (hn : nonce.length = 12)
    (hc : ∀ key n m ct, c.enc key n m = some ct → c.dec key n ct = some m)
    (henc : encrypt_data c nonce b k = .ok out) :
    (∃ ct, c.enc k nonce b = some ct ∧ out = nonce ++ ct)
    ∧ out.take 12 = nonce
    ∧ decrypt_data c out k = .ok b := by
  rcases hct : c.enc k nonce b with _ | ct
  · rw [encrypt_data, hct] at henc
    exact absurd henc (by simp)
  · rw [encrypt_data, hct] at henc
    have hout : out = nonce ++ ct := by
      have := henc
      simp only [Except.ok.injEq] at this
      exact this.symm
    subst hout
    refine ⟨⟨ct, rfl, rfl⟩, List.take_left' hn, ?_⟩
    have hlen : ¬ ((nonce ++ ct).length < 12) := by simp [hn]
    have hdec : c.dec k ((nonce ++ ct).take 12) ((nonce ++ ct).drop 12) = some b := by
      rw [List.take_left' hn, List.drop_left' hn]
      exact hc k nonce b ct hct
    rw [decrypt_data, if_neg hlen, hdec]

/-- Witness for C5 at a concrete cipher, nonce, key and plaintext. -/
theorem encrypt_then_decrypt_roundtrip_witness :
    decrypt_data idCipher (List.replicate 12 0 ++ [1, 2, 3]) (List.replicate 32 7)
      = .ok [1, 2, 3] :=
  (encrypt_then_decrypt_roundtrip idCipher [1, 2, 3] (List.replicate 32 7)
    (List.replicate 12 0) (List.replicate 12 0 ++ [1, 2, 3])
    (by simp)
    (fun key n m ct hmc => by
      simp only [idCipher, Option.some.injEq] at hmc ⊢
      exact hmc.symm)
    rfl).2.2

/-! ## C8 — derive_key determinism and iteration count -/

/-- **C8.** `derive_key` is deterministic (two calls on identical inputs give
identical output — it is a pure function of password and salt), produces a
32-byte key, and is PBKDF2 with the hard-coded iteration count 100,000: the
derived key is the 100,000-fold iterated-PRF block (one initial PRF
application plus 99,999 chained ones, xored together).  HMAC-SHA256 is the
abstract 32-byte-output PRF `prf`. -/
theorem derive_key_deterministic_iterated (prf : List Byte → List Byte → List Byte)
    (p s : List Byte) (hl : ∀ k m, (prf k m).length = 32) :
    derive_key prf p s = derive_key prf p s
    ∧ derive_key prf p s
        = (pbkdf2Chain prf p (deriveKeyIterations - 1)
            (prf p (s ++ int32be 1)) (prf p (s ++ int32be 1))).take 32
    ∧ 100000 ≤ deriveKeyIterations
    ∧ (derive_key prf p s).length = 32 := by
  have hblock : (pbkdf2Block prf p s deriveKeyIterations 1).length = 32 :=
    pbkdf2Chain_length prf p hl _ _ _ (hl p (s ++ int32be 1))
  have h2 : derive_key prf p s = (pbkdf2Block prf p s deriveKeyIterations 1).take 32 := by
    simp [derive_key, pbkdf2, List.range_succ, List.range_zero]
  refine ⟨rfl, ?_, le_refl _, ?_⟩
  · rw [h2]
    simp [pbkdf2Block]
  · rw [h2, List.length_take, hblock]
    exact Nat.min_self 32

/-- Witness for C8 at a concrete PRF, password and salt. -/
theorem derive_key_deterministic_iterated_witness :
    (derive_key zeroPrf [1] [2]).length = 32 :=
  (derive_key_deterministic_iterated zeroPrf [1] [2]
    (fun _ _ => by simp [zeroPrf])).2.2.2

/-! ## C2 — missing salt file on the open path -/

/-- The concrete vault directory of the counterexample: store file present,
salt file absent. -/
def envNoSalt : VaultEnv :=
  { dbExists := true, saltExists := false, saltBytes := [],
    dbPassword := "owner-secret", freshSalt := [] }

/-- **C2 counterexample.** With the store file present and the salt file
absent, `VaultManager::new` fails — but with the `IoError` constructor
(ErrorKind::NotFound, message "Salt file missing"), surfaced to the caller
as "IO error: Salt file missing".  The code's `VaultError` enum has no
`MissingSalt` variant at all (its constructors are `DbError`, `IoError`,
`SecurityError`, `InvalidPassword`, `VaultAlreadyExists`), so the claim that
unlock fails *with the MissingSalt error* is false as stated. -/
theorem missing_salt_reported_as_io_error_counterexample :
    vaultManagerNew zeroPrf envNoSalt "any-password"
      = .error (VaultError.ioError "NotFound" "Salt file missing")
    ∧ vaultErrorMessage (VaultError.ioError "NotFound" "Salt file missing")
      = "IO error: Salt file missing"
    ∧ VaultError.ioError "NotFound" "Salt file missing" ≠ VaultError.invalidPassword :=
  ⟨rfl, rfl, by decide⟩

/-- **C2 (amended).** For every vault directory in which the store file
exists but the salt file is absent, unlock fails with
`IoError("Salt file missing")` — there being no dedicated `MissingSalt`
variant — and never with `InvalidPassword`, regardless of the password. -/
theorem missing_salt_io_error (prf : List Byte → List Byte → List Byte)
    (env : VaultEnv) (password : String)
    (hdb : env.dbExists = true) (hsalt : env.saltExists = false) :
    vaultManagerNew prf env password
      = .error (.ioError "NotFound" "Salt file missing")
    ∧ vaultManagerNew prf env password ≠ .error .invalidPassword := by
  have h : vaultManagerNew prf env password
      = .error (.ioError "NotFound" "Salt file missing") := by
    unfold vaultManagerNew
    rw [hdb, hsalt]
    simp
  refine ⟨h, ?_⟩
  rw [h]
  simp

/-- Witness for C2's amended theorem at a concrete directory state. -/
theorem missing_salt_io_error_witness :
    vaultManagerNew zeroPrf
      { dbExists := true, saltExists := false, saltBytes := [1],
        dbPassword := "pw", freshSalt := [2] } "guess"
      ≠ .error VaultError.invalidPassword :=
  (missing_salt_io_error zeroPrf _ "guess" rfl rfl).2

/-! ## C4 — password verification on the open path -/

/-- **C4.** On an existing vault (store and salt both present), when the
trivial verification read fails — the SQLCipher model makes it fail exactly
when the supplied password differs from the store's secret — unlock returns
`InvalidPassword`, and `unlock_vault` leaves the process-wide vault cell
unchanged, so no session holding the wrongly derived key is returned or
retained. -/
theorem wrong_password_rejected (prf : List Byte → List Byte → List Byte)
    (cur : Option VaultManagerM) (env : VaultEnv) (password : String)
    (hdb : env.dbExists = true) (hsalt : env.saltExists = true)
    (hread : password ≠ env.dbPassword) :
    vaultManagerNew prf env password = .error .invalidPassword
    ∧ unlockVault prf cur env password = (cur, .error "Invalid password") := by
  have h : vaultManagerNew prf env password = .error .invalidPassword := by
    unfold vaultManagerNew
    rw [hdb, hsalt]
    simp [hread]
  exact ⟨h, by simp [unlockVault, h, vaultErrorMessage]⟩

/-- Witness for C4 at a concrete vault and wrong password. -/
theorem wrong_password_rejected_witness :
    unlockVault zeroPrf none
      { dbExists := true, saltExists := true, saltBytes := [0],
        dbPassword := "correct horse", freshSalt := [] } "wrong"
      = (none, .error "Invalid password") :=
  (wrong_password_rejected zeroPrf none _ "wrong" rfl rfl (by decide)).2

/-! ## C3 — cache invalidation on deletion -/

/-- The asset of the C3/C7 concrete scenario. -/
def c3Asset : AssetRow :=
  { id := "a1", shardId := some "s1", filePath := "a1.mp4", mimeType := "video/mp4" }

/-- Concrete state: one shard `s1` owning one asset `a1` whose decrypted
bytes `[9, 9, 9]` sit in the cache. -/
def c3State : AppStateM :=
  { vault := some { assetKey := List.replicate 32 0, assets := [c3Asset],
                    shards := [{ id := "s1" }] },
    cache := [("a1", [9, 9, 9])] }

/-- The encrypted blob of `a1` on disk (12-byte nonce then ciphertext). -/
def c3Disk : List (String × List Byte) :=
  [("a1.mp4", List.replicate 12 0 ++ [9, 9, 9])]

/-- **C3 (code-bug evaluation).** Deleting shard `s1` cascade-deletes asset
`a1` — the asset row and blob are removed — yet the returned state still
holds `a1`'s plaintext in the decrypted-asset cache: `delete_shard` never
touches the cache, contradicting the claim (and the spec's *must
invalidate*) for cascade deletions.  `delete_asset` does invalidate (see
`deleteAsset_invalidates_cache`), so the slip is specific to the cascade
path. -/
theorem delete_shard_leaves_cache_stale :
    deleteShard c3State c3Disk "s1"
      = .ok ({ vault := some { assetKey := List.replicate 32 0, assets := [],
                               shards := [] },
               cache := [("a1", [9, 9, 9])] }, [])
    ∧ lookupList ([("a1", [9, 9, 9])] : List (String × List Byte)) "a1"
      = some [9, 9, 9] := ⟨rfl, rfl⟩

/-- Looking up a key just removed from the cache yields nothing. -/
theorem lookupList_removeKey (m : List (String × List Byte)) (k : String) :
    lookupList (removeKey m k) k = none := by
  induction m with
  | nil => rfl
  | cons a t ih =>
    unfold lookupList removeKey at ih ⊢
    rw [List.filter_cons]
    by_cases hak : a.1 = k
    · simp [hak]
    · simp [hak, List.find?_cons]

/-- The explicit per-asset delete does invalidate the cache entry
(supporting half of C3, true on the code). -/
theorem deleteAsset_invalidates_cache (st : AppStateM) (disk : List (String × List Byte))
    (id : String) (st' : AppStateM) (disk' : List (String × List Byte))
    (h : deleteAsset st disk id = .ok (st', disk')) :
    lookupList st'.cache id = none := by
  unfold deleteAsset at h
  split at h
  · exact absurd h (by simp)
  · split at h
    · exact absurd h (by simp)
    · simp only [Except.ok.injEq, Prod.mk.injEq] at h
      have hc : st'.cache = removeKey st.cache id := by
        rw [← h.1]
      rw [hc]
      exact lookupList_removeKey st.cache id

/-! ## C10 — locked vault serves nothing, even on a warm cache -/

/-- **C10.** Whenever the process-wide session is `None`, the HTTP route
returns the `403 Vault locked` response with the cache untouched — even when
the requested asset's bytes sit in the cache — because the mime-type lookup
requires an unlocked session before any cached bytes are used; likewise the
protocol handler (for any path that carries an id) returns its
`403 Vault is locked` response.  No asset bytes are returned: the bodies are
the fixed text messages. -/
theorem locked_vault_serves_no_bytes (c : AeadCipher) (st : AppStateM)
    (disk : List (String × List Byte)) (id : String) (hdr : Option String)
    (hlocked : st.vault = none) :
    getAsset c st disk id hdr = some (vaultLockedResp, st.cache)
    ∧ serverGetAsset c st disk id hdr = some (corsWrap vaultLockedResp, st.cache)
    ∧ (∀ path, trimSlashes path ≠ "" →
        protocolHandler c st disk path hdr
          = some ⟨.forbidden, [], strBytes "Vault is locked"⟩)
    ∧ vaultLockedResp.body = strBytes "Vault locked" := by
  have h : getAsset c st disk id hdr = some (vaultLockedResp, st.cache) := by
    unfold getAsset
    rw [hlocked]
  refine ⟨h, by simp [serverGetAsset, h], ?_, rfl⟩
  intro path hp
  unfold protocolHandler
  rw [hlocked]
  simp [hp]

/-- Witness for C10: locked vault, warm cache entry for the requested id. -/
theorem locked_vault_serves_no_bytes_witness :
    getAsset idCipher { vault := none, cache := [("a1", [1, 2, 3])] } [] "a1" none
      = some (vaultLockedResp, [("a1", [1, 2, 3])]) :=
  (locked_vault_serves_no_bytes idCipher
    { vault := none, cache := [("a1", [1, 2, 3])] } [] "a1" none rfl).1

/-! ## C6 — the 50-entry cache bound -/

theorem cacheEvictIfFull_length (m : List (String × List Byte)) (hm : m.length ≤ 50) :
    (cacheEvictIfFull m).length ≤ 49 := by
  rcases m with _ | ⟨⟨k, v⟩, rest⟩
  · simp [cacheEvictIfFull]
  · unfold cacheEvictIfFull
    by_cases h50 : 50 ≤ ((k, v) :: rest).length
    · rw [if_pos h50]
      show (removeKey ((k, v) :: rest) k).length ≤ 49
      have hrk : (removeKey ((k, v) :: rest) k).length ≤ rest.length := by
        unfold removeKey
        rw [List.filter_cons]
        simp only [bne_self_eq_false, Bool.false_eq_true, if_false]
        exact List.length_filter_le _ _
      have : rest.length + 1 ≤ 50 := by simpa using hm
      omega
    · rw [if_neg h50]
      simp only [List.length_cons] at h50 ⊢
      omega

theorem cacheInsert50_length (m : List (String × List Byte)) (id : String)
    (data : List Byte) (hm : m.length ≤ 50) :
    (cacheInsert50 m id data).length ≤ 50 := by
  have h := cacheEvictIfFull_length m hm
  have h2 : (removeKey (cacheEvictIfFull m) id).length ≤ 49 :=
    le_trans (List.length_filter_le _ _) h
  simp only [cacheInsert50, List.length_cons]
  omega

theorem cacheInsert50_foldl_length (ops : List (String × List Byte)) :
    ∀ m : List (String × List Byte), m.length ≤ 50 →
      (ops.foldl (fun acc p => cacheInsert50 acc p.1 p.2) m).length ≤ 50 := by
  induction ops with
  | nil => intro m hm; simpa using hm
  | cons a t ih =>
    intro m hm
    simp only [List.foldl_cons]
    exact ih _ (cacheInsert50_length m a.1 a.2 hm)

/-- **C6.** The decrypted-asset cache never exceeds 50 entries: a single
insertion from a cache of at most 50 entries stays within 50; folding any
sequence of insertions over a within-bound cache stays within the bound;
when the cache is full the guard evicts exactly one existing entry before
the insert (keys being distinct, as they are for a `HashMap`); and every
cache produced by `get_asset` from a within-bound cache is within bound. -/
theorem cache_bounded_by_50 (st : AppStateM)
    (hnd : (st.cache.map Prod.fst).Nodup) (hm : st.cache.length ≤ 50) :
    (∀ id data, (cacheInsert50 st.cache id data).length ≤ 50)
    ∧ (∀ ops : List (String × List Byte),
        (ops.foldl (fun acc p => cacheInsert50 acc p.1 p.2) st.cache).length ≤ 50)
    ∧ (50 ≤ st.cache.length →
        (cacheEvictIfFull st.cache).length + 1 = st.cache.length)
    ∧ (∀ c disk id hdr r cache',
        getAsset c st disk id hdr = some (r, cache') → cache'.length ≤ 50) := by
  refine ⟨fun id data => cacheInsert50_length st.cache id data hm,
          fun ops => cacheInsert50_foldl_length ops st.cache hm, ?_, ?_⟩
  · intro h50
    rcases hc : st.cache with _ | ⟨⟨k, v⟩, rest⟩
    · rw [hc] at h50; simp at h50
    · rw [hc] at h50 hnd
      unfold cacheEvictIfFull
      rw [if_pos h50]
      show (removeKey ((k, v) :: rest) k).length + 1 = ((k, v) :: rest).length
      have hrest : removeKey ((k, v) :: rest) k = rest := by
        unfold removeKey
        rw [List.filter_cons]
        simp only [bne_self_eq_false, Bool.false_eq_true, if_false]
        rw [List.filter_eq_self]
        intro p hp
        simp only [List.map_cons, List.nodup_cons] at hnd
        have hne : p.1 ≠ k := by
          intro he
          exact hnd.1 (he ▸ List.mem_map_of_mem Prod.fst hp)
        simpa [bne_iff_ne] using hne
      rw [hrest]
      simp
  · intro c disk id hdr r cache' h
    unfold getAsset at h
    split at h
    · simp only [Option.some.injEq, Prod.mk.injEq] at h
      rw [← h.2]; exact hm
    · split at h
      · simp only [Option.some.injEq, Prod.mk.injEq] at h
        rw [← h.2]; exact hm
      · split at h
        · rcases Option.map_eq_some'.mp h with ⟨r0, hr0, heq⟩
          simp only [Prod.mk.injEq] at heq
          rw [← heq.2]; exact hm
        · split at h
          · simp only [Option.some.injEq, Prod.mk.injEq] at h
            rw [← h.2]; exact hm
          · split at h
            · simp only [Option.some.injEq, Prod.mk.injEq] at h
              rw [← h.2]; exact hm
            · rcases Option.map_eq_some'.mp h with ⟨r0, hr0, heq⟩
              simp only [Prod.mk.injEq] at heq
              rw [← heq.2]
              exact cacheInsert50_length st.cache id _ hm

/-- A concrete full cache: 50 distinct keys. -/
def fullCache : List (String × List Byte) :=
  (List.range 50).map (fun i => (toString i, [i]))

/-- Witness for C6: inserting into an already-full 50-entry cache stays
within the 50-entry bound. -/
theorem cache_bounded_by_50_witness :
    (cacheInsert50 fullCache "new-asset" [7]).length ≤ 50 :=
  (cache_bounded_by_50 { vault := none, cache := fullCache } (by decide) (by decide)).1
    "new-asset" [7]

/-! ## Range lemmas shared by C1 and C9 -/

theorem rangeDecide_satisfiable_bounds (L : Nat) (hdr : Option String) (s e : Nat)
    (hL : L ≤ 2 ^ 64) (h : rangeDecide L hdr = .satisfiable s e) :
    s ≤ e ∧ e + 1 ≤ L := by
  rcases hdr with _ | hstr
  · simp [rangeDecide] at h
  · simp only [rangeDecide] at h
    by_cases hb : hstr.data.take 6 = "bytes=".data
    · rw [if_pos hb] at h
      by_cases hcond : rangeStartOf hstr ≤ rangeEndOf hstr L ∧ rangeStartOf hstr < L
      · rw [if_pos hcond] at h
        injection h with hs he
        have hL1 : 1 ≤ L := by omega
        have hu : u64sub1 L = L - 1 := u64sub1_eq L hL1 hL
        subst hs
        subst he
        constructor
        · exact le_min hcond.1 (by omega)
        · have := min_le_right (rangeEndOf hstr L) (u64sub1 L)
          omega
      · rw [if_neg hcond] at h
        exact absurd h (by simp)
    · rw [if_neg hb] at h
      exact absurd h (by simp)

theorem serverRangeSection_isSome (mime : String) (data : List Byte)
    (hdr : Option String) (hL : data.length < 2 ^ 64) :
    (serverRangeSection mime data hdr).isSome := by
  unfold serverRangeSection
  rcases hd : rangeDecide data.length hdr with _ | _ | ⟨s, e⟩
  · simp
  · simp
  · have hb := rangeDecide_satisfiable_bounds data.length hdr s e (le_of_lt hL) hd
    have hsl : sliceInclusive data s e = some ((data.drop s).take (e + 1 - s)) := by
      unfold sliceInclusive
      rw [if_pos ⟨by omega, hb.2⟩]
    simp [hsl]

theorem protocolRangeSection_isSome (mime : String) (data : List Byte)
    (hdr : Option String) (hL : data.length < 2 ^ 64) :
    (protocolRangeSection mime data hdr).isSome := by
  unfold protocolRangeSection
  rcases hd : rangeDecide data.length hdr with _ | _ | ⟨s, e⟩
  · simp
  · simp
  · have hb := rangeDecide_satisfiable_bounds data.length hdr s e (le_of_lt hL) hd
    have hsl : sliceInclusive data s e = some ((data.drop s).take (e + 1 - s)) := by
      unfold sliceInclusive
      rw [if_pos ⟨by omega, hb.2⟩]
    simp [hsl]

/-! ## C9 — no panic / the `total_len - 1` underflow -/

/-- **C9 counterexample.** On the empty decrypted buffer with the header
`bytes=0-`, the code's default end `total_len - 1` *does* underflow: the
`u64` subtraction wraps to `2^64 - 1` (so `end + 1 ≠ total_len`, the witness
of wrap-around), refuting the claim's "never underflows" clause.  The
handler still answers — range-not-satisfiable — because the wrapped end
fails the `start < total_len` test before any slicing. -/
theorem range_empty_buffer_underflow_counterexample :
    rangeEndOf "bytes=0-" (List.length ([] : List Byte)) = 2 ^ 64 - 1
    ∧ rangeEndOf "bytes=0-" (List.length ([] : List Byte)) + 1
        ≠ List.length ([] : List Byte)
    ∧ serverRangeSection "application/octet-stream" [] (some "bytes=0-")
        = some ⟨.notSatisfiable, [("Content-Range", "bytes */0")], []⟩ := by
  refine ⟨by decide, by decide, by decide⟩

/-- **C9 (amended).** For every decrypted buffer (any length below `2^64`,
the `usize` range) and every Range header value, both endpoints' range
sections produce a response — every slice taken is in bounds, so no
indexing panic occurs; and for every *nonempty* buffer the default end
`total_len - 1` does not wrap.  (For the empty buffer it wraps, per the
counterexample, and the response is range-not-satisfiable.) -/
theorem range_section_never_panics (data : List Byte) (mime : String)
    (hdr : Option String) (hL : data.length < 2 ^ 64) :
    (serverRangeSection mime data hdr).isSome
    ∧ (protocolRangeSection mime data hdr).isSome
    ∧ (data ≠ [] → u64sub1 data.length + 1 = data.length) := by
  refine ⟨serverRangeSection_isSome mime data hdr hL,
          protocolRangeSection_isSome mime data hdr hL, ?_⟩
  intro hne
  have h1 : 1 ≤ data.length := by
    rcases data with _ | ⟨a, t⟩
    · exact absurd rfl hne
    · simp
  rw [u64sub1_eq data.length h1 (le_of_lt hL)]
  omega

/-- Witness for C9's amended theorem: a one-byte buffer and `bytes=0-`. -/
theorem range_section_never_panics_witness :
    (serverRangeSection "video/mp4" [5] (some "bytes=0-")).isSome
    ∧ u64sub1 1 + 1 = 1 := by
  have h := range_section_never_panics [5] "video/mp4" (some "bytes=0-") (by decide)
  exact ⟨h.1, h.2.2 (by decide)⟩

/-! ## C1 — byte-range semantics of both endpoints -/

theorem rangeEndOf_eq_claimEnd (h : String) (L : Nat) (h1 : 1 ≤ L) (h2 : L ≤ 2 ^ 64) :
    rangeEndOf h L = claimEnd h L := by
  unfold rangeEndOf claimEnd
  rw [u64sub1_eq L h1 h2]

theorem rangeDecide_spec (L : Nat) (h : String) (hb : h.data.take 6 = "bytes=".data)
    (hL : L ≤ 2 ^ 64) :
    rangeDecide L (some h)
      = if rangeStartOf h ≤ claimEnd h L ∧ rangeStartOf h < L
        then .satisfiable (rangeStartOf h) (min (claimEnd h L) (L - 1))
        else .unsat := by
  simp only [rangeDecide]
  rw [if_pos hb]
  rcases Nat.eq_zero_or_pos L with hL0 | hL1
  · subst hL0
    rw [if_neg (by simp), if_neg (by simp)]
  · rw [rangeEndOf_eq_claimEnd h L hL1 hL, u64sub1_eq L hL1 hL]

/-- **C1.** For every decrypted buffer of length `L` and every request whose
Range header has the form `bytes=...` — start parsed from the first
dash-separated field with default 0, end from the second with default
`L - 1` (absent or unparsable) — if `start > end` or `start ≥ L`, both
endpoints respond range-not-satisfiable with header
`Content-Range: bytes */L` and an empty body; otherwise both respond
partial-content whose body is exactly the inclusive slice
`[start, min(end, L - 1)]` of the buffer, with
`Content-Range: bytes start-<clamped end>/L` and `Content-Length` equal to
the slice length (which is `min(end, L - 1) + 1 - start`). -/
theorem range_request_semantics (data : List Byte) (mime h : String)
    (hb : h.data.take 6 = "bytes=".data) (hL : data.length < 2 ^ 64) :
    (rangeStartOf h > claimEnd h data.length ∨ rangeStartOf h ≥ data.length →
      serverRangeSection mime data (some h)
        = some ⟨.notSatisfiable,
            [("Content-Range", "bytes */" ++ toString data.length)], []⟩
      ∧ protocolRangeSection mime data (some h)
        = some ⟨.notSatisfiable,
            [("Content-Range", "bytes */" ++ toString data.length)], []⟩)
    ∧ (rangeStartOf h ≤ claimEnd h data.length ∧ rangeStartOf h < data.length →
      serverRangeSection mime data (some h)
        = some ⟨.partContent,
            [("Content-Type", mime),
             ("Content-Range",
               "bytes " ++ toString (rangeStartOf h) ++ "-"
                 ++ toString (min (claimEnd h data.length) (data.length - 1))
                 ++ "/" ++ toString data.length),
             ("Content-Length",
               toString (inclusiveSlice data (rangeStartOf h)
                 (min (claimEnd h data.length) (data.length - 1))).length),
             ("Accept-Ranges", "bytes")],
            inclusiveSlice data (rangeStartOf h)
              (min (claimEnd h data.length) (data.length - 1))⟩
      ∧ protocolRangeSection mime data (some h)
        = some ⟨.partContent,
            [("Content-Range",
               "bytes " ++ toString (rangeStartOf h) ++ "-"
                 ++ toString (min (claimEnd h data.length) (data.length - 1))
                 ++ "/" ++ toString data.length),
             ("Content-Length",
               toString (inclusiveSlice data (rangeStartOf h)
                 (min (claimEnd h data.length) (data.length - 1))).length),
             ("Content-Type", mime),
             ("Access-Control-Allow-Origin", "*"),
             ("Accept-Ranges", "bytes")],
            inclusiveSlice data (rangeStartOf h)
              (min (claimEnd h data.length) (data.length - 1))⟩
      ∧ (inclusiveSlice data (rangeStartOf h)
           (min (claimEnd h data.length) (data.length - 1))).length
          = min (claimEnd h data.length) (data.length - 1) + 1 - rangeStartOf h) := by
  have hdec := rangeDecide_spec data.length h hb (le_of_lt hL)
  constructor
  · intro hcase
    have hneg : ¬ (rangeStartOf h ≤ claimEnd h data.length
        ∧ rangeStartOf h < data.length) := by
      rcases hcase with hgt | hge
      · rintro ⟨hle, -⟩; omega
      · rintro ⟨-, hlt⟩; omega
    rw [if_neg hneg] at hdec
    constructor
    · unfold serverRangeSection
      rw [hdec]
    · unfold protocolRangeSection
      rw [hdec]
  · rintro ⟨hle, hlt⟩
    rw [if_pos ⟨hle, hlt⟩] at hdec
    have hL1 : 1 ≤ data.length := by omega
    have hSE : rangeStartOf h ≤ min (claimEnd h data.length) (data.length - 1) :=
      le_min hle (by omega)
    have hEL : min (claimEnd h data.length) (data.length - 1) + 1 ≤ data.length := by
      have := min_le_right (claimEnd h data.length) (data.length - 1)
      omega
    have hslice : sliceInclusive data (rangeStartOf h)
        (min (claimEnd h data.length) (data.length - 1))
        = some ((data.drop (rangeStartOf h)).take
            (min (claimEnd h data.length) (data.length - 1) + 1 - rangeStartOf h)) := by
      unfold sliceInclusive
      rw [if_pos ⟨by omega, hEL⟩]
    have hchunk : inclusiveSlice data (rangeStartOf h)
        (min (claimEnd h data.length) (data.length - 1))
        = (data.drop (rangeStartOf h)).take
            (min (claimEnd h data.length) (data.length - 1) + 1 - rangeStartOf h) :=
      List.drop_take (min (claimEnd h data.length) (data.length - 1) + 1)
        (rangeStartOf h) data
    refine ⟨?_, ?_, ?_⟩
    · unfold serverRangeSection
      rw [hdec]
      simp only [hslice, Option.map_some', hchunk]
    · unfold protocolRangeSection
      rw [hdec]
      simp only [hslice, Option.map_some', hchunk]
    · rw [hchunk, List.length_take, List.length_drop]
      omega

/-- Witness for C1: `bytes=1-3` on a five-byte buffer yields the inclusive
slice `[1, 3]` with the advertised headers. -/
theorem range_request_semantics_witness :
    serverRangeSection "video/mp4" [10, 11, 12, 13, 14] (some "bytes=1-3")
      = some ⟨.partContent,
          [("Content-Type", "video/mp4"), ("Content-Range", "bytes 1-3/5"),
           ("Content-Length", "3"), ("Accept-Ranges", "bytes")],
          [11, 12, 13]⟩ := by
  have h := (range_request_semantics [10, 11, 12, 13, 14] "video/mp4" "bytes=1-3"
      (by decide) (by decide)).2 ⟨by decide, by decide⟩
  exact h.1.trans (by decide)

/-! ## C7 — permissive cross-origin header coverage -/

/-- The raw `get_asset` handler (before the CORS layer) never emits an
`Access-Control-Allow-Origin` header of its own. -/
theorem serverRangeSection_no_cors (mime : String) (data : List Byte)
    (hdr : Option String) (r : ResponseM)
    (h : serverRangeSection mime data hdr = some r) :
    lookupHeader "Access-Control-Allow-Origin" r.headers = none := by
  unfold serverRangeSection at h
  split at h
  · simp only [Option.some.injEq] at h
    rw [← h]
    simp [lookupHeader]
  · simp only [Option.some.injEq] at h
    rw [← h]
    simp [lookupHeader]
  · rcases Option.map_eq_some'.mp h with ⟨chunk, -, heq⟩
    rw [← heq]
    simp [lookupHeader]

/-- Appending the CORS header makes the permissive header visible whenever
the wrapped response did not already set one. -/
theorem corsWrap_has_cors (r : ResponseM)
    (h : lookupHeader "Access-Control-Allow-Origin" r.headers = none) :
    lookupHeader "Access-Control-Allow-Origin" (corsWrap r).headers = some "*" := by
  unfold corsWrap lookupHeader at *
  have hfind : r.headers.find? (fun p => p.1 == "Access-Control-Allow-Origin") = none := by
    rcases hf : r.headers.find? (fun p => p.1 == "Access-Control-Allow-Origin") with _ | v
    · exact hf
    · rw [hf] at h
      exact absurd h (by simp)
  simp [List.find?_append, hfind]

/-- Every response of the raw `get_asset` handler lacks the CORS header (it
is the layer that adds it). -/
theorem getAsset_no_cors (c : AeadCipher) (st : AppStateM)
    (disk : List (String × List Byte)) (id : String) (hdr : Option String)
    (r : ResponseM) (cache' : List (String × List Byte))
    (h : getAsset c st disk id hdr = some (r, cache')) :
    lookupHeader "Access-Control-Allow-Origin" r.headers = none := by
  unfold getAsset at h
  split at h
  · simp only [Option.some.injEq, Prod.mk.injEq] at h
    rw [← h.1]
    rfl
  · split at h
    · simp only [Option.some.injEq, Prod.mk.injEq] at h
      rw [← h.1]
      rfl
    · split at h
      · rcases Option.map_eq_some'.mp h with ⟨r0, hr0, heq⟩
        simp only [Prod.mk.injEq] at heq
        rw [← heq.1]
        exact serverRangeSection_no_cors _ _ _ _ hr0
      · split at h
        · simp only [Option.some.injEq, Prod.mk.injEq] at h
          rw [← h.1]
          rfl
        · split at h
          · simp only [Option.some.injEq, Prod.mk.injEq] at h
            rw [← h.1]
            rfl
          · rcases Option.map_eq_some'.mp h with ⟨r0, hr0, heq⟩
            simp only [Prod.mk.injEq] at heq
            rw [← heq.1]
            exact serverRangeSection_no_cors _ _ _ _ hr0

/-- The protocol handler's full- and partial-content responses do carry the
permissive header. -/
theorem protocolRangeSection_cors_on_success (mime : String) (data : List Byte)
    (hdr : Option String) (r : ResponseM)
    (h : protocolRangeSection mime data hdr = some r)
    (hs : r.status = .ok ∨ r.status = .partContent) :
    lookupHeader "Access-Control-Allow-Origin" r.headers = some "*" := by
  unfold protocolRangeSection at h
  split at h
  · simp only [Option.some.injEq] at h
    rw [← h]
    simp [lookupHeader]
  · simp only [Option.some.injEq] at h
    rw [← h] at hs
    simp at hs
  · rcases Option.map_eq_some'.mp h with ⟨chunk, -, heq⟩
    rw [← heq]
    simp [lookupHeader]

/-- **C7 counterexample.** A reachable range-not-satisfiable response of the
custom-scheme protocol handler (unlocked vault, existing asset `a1` with a
3-byte plaintext, request `bytes=5-`) carries only a `Content-Range` header:
no `Access-Control-Allow-Origin` header at all, refuting the claim for the
range-not-satisfiable outcome of that endpoint. -/
theorem protocol_416_lacks_cors_counterexample :
    protocolHandler idCipher c3State c3Disk "/a1" (some "bytes=5-")
      = some ⟨.notSatisfiable, [("Content-Range", "bytes */3")], []⟩
    ∧ lookupHeader "Access-Control-Allow-Origin"
        [("Content-Range", "bytes */3")] = none := ⟨by decide, by decide⟩

/-- **C7 (amended).** Every response of the local HTTP server route carries
the permissive cross-origin header — `CorsLayer::permissive()` wraps every
outcome, including partial content and range-not-satisfiable — and the
custom-scheme protocol handler's full-content and partial-content responses
carry it; the protocol handler's range-not-satisfiable (and error) responses
do not (see the counterexample). -/
theorem cors_on_streaming_responses (c : AeadCipher) (st : AppStateM)
    (disk : List (String × List Byte)) (id path : String) (hdr : Option String) :
    (∀ r cache', serverGetAsset c st disk id hdr = some (r, cache') →
      lookupHeader "Access-Control-Allow-Origin" r.headers = some "*")
    ∧ (∀ r, protocolHandler c st disk path hdr = some r →
      r.status = .ok ∨ r.status = .partContent →
      lookupHeader "Access-Control-Allow-Origin" r.headers = some "*") := by
  constructor
  · intro r cache' h
    unfold serverGetAsset at h
    rcases Option.map_eq_some'.mp h with ⟨⟨r0, c0⟩, hga, heq⟩
    simp only [Prod.mk.injEq] at heq
    rw [← heq.1]
    exact corsWrap_has_cors r0 (getAsset_no_cors c st disk id hdr r0 c0 hga)
  · intro r h hs
    unfold protocolHandler at h
    by_cases hid : trimSlashes path = ""
    · rw [if_pos hid] at h
      simp only [Option.some.injEq] at h
      rw [← h] at hs
      simp at hs
    · rw [if_neg hid] at h
      split at h
      · simp only [Option.some.injEq] at h
        rw [← h] at hs
        simp at hs
      · split at h
        · simp only [Option.some.injEq] at h
          rw [← h] at hs
          simp at hs
        · split at h
          · simp only [Option.some.injEq] at h
            rw [← h] at hs
            simp at hs
          · split at h
            · simp only [Option.some.injEq] at h
              rw [← h] at hs
              simp at hs
            · exact protocolRangeSection_cors_on_success _ _ _ _ h hs

/-- Witness for C7's amended theorem: a cache-hit full response of the HTTP
route carries the permissive header added by the layer. -/
theorem cors_on_streaming_responses_witness :
    lookupHeader "Access-Control-Allow-Origin"
      [("Content-Type", "video/mp4"), ("Accept-Ranges", "bytes"),
       ("Access-Control-Allow-Origin", "*")] = some "*" := by
  have h := (cors_on_streaming_responses idCipher c3State c3Disk "a1" "/a1" none).1
    (corsWrap ⟨.ok, [("Content-Type", "video/mp4"), ("Accept-Ranges", "bytes")],
      [9, 9, 9]⟩)
    c3State.cache (by decide)
  simpa [corsWrap] using h

end Rustmate
